import Mathlib

/-!
Verification development for the Forensic Economic Loss Calculator
(`src/main.py`).  The calculation pipeline of `main.py` is shallowly
embedded here: Python floats are modelled by exact rationals (`ℚ`),
calendar dates by signed day counts, the optional on-disk life table
(`Table01.xlsx`) by an `Option LifeTable` parameter, and Python
exceptions (`FileNotFoundError` from `_load_life_table`, `IndexError`
from `pv_df["CumulativePV"].iloc[-1]`) by `Except String` results.
Each definition mirrors the identically-named Python function.
-/

namespace ForensicLoss

/-- Rows of the parsed life table: `(age_int, ex)`, as produced by
`_load_life_table` after renaming/filtering. -/
abbrev LifeTable := List (ℕ × ℚ)

/-- The `config["person"]` block.  Dates are abstracted to day counts
(the code only ever uses `(dod - dob).days`). -/
structure Person where
  firstName : String
  lastName : String
  sex : String
  dobDays : ℤ
  dodDays : ℤ
  educationLevel : String
  activeStatus : String
  deriving DecidableEq

/-- The `config["occupation"]` block. -/
structure Occupation where
  socCode : String
  title : String
  county : String
  state : String
  baseSalaryUsd : ℚ
  deriving DecidableEq

/-- The `config["assumptions"]` block; `none` models an absent key /
Python `None`. -/
structure Assumptions where
  retirementAgeHint : Option ℚ
  lifeExpectancyOverrideYears : Option ℚ
  worklifeTableOverride : Option ℚ
  annualGrowthRateOverride : Option ℚ
  discountRateOverride : Option ℚ
  deriving DecidableEq

/-- A case configuration (the dict consumed by `run_case`, with the
required fields made explicit). -/
structure CaseConfig where
  caseId : String
  person : Person
  occupation : Occupation
  assumptions : Assumptions
  deriving DecidableEq

/-- The `summary` dict built at the end of `run_case`. -/
structure Summary where
  lifeExpectancyYears : ℚ
  worklifeRemainingYears : ℚ
  avgWageGrowthPct : ℚ
  discountRatePct : ℚ
  totalEconomicLossUsd : ℚ
  deriving DecidableEq

/-- All numeric tables produced by one pass of `run_case`, plus the
summary (file rendering is out of scope). -/
structure RunResult where
  lifeExpectancy : ℚ
  lifeFractions : List ℚ
  worklifeYears : ℚ
  worklifePortions : List ℚ
  wages : List ℚ
  yoyGrowth : List (Option ℚ)
  avgGrowth : ℚ
  fullYearValues : List ℚ
  actualValues : List ℚ
  discountFactors : List ℚ
  presentValues : List ℚ
  cumulativePV : List ℚ
  summary : Summary
  deriving DecidableEq

/-- Message raised by `_load_life_table` when `Table01.xlsx` is absent. -/
def fileNotFoundMsg : String :=
  "FileNotFoundError: Life table file not found. Please ensure Table01.xlsx is in the same directory."

/-- Message raised by positional `iloc[-1]` indexing on an empty column
(`run_case` line 629 does this on the CumulativePV column). -/
def indexErrorMsg : String :=
  "IndexError: single positional indexer is out-of-bounds"

/-- Age derivation `age_years = (dod - dob).days / 365.25` (`run_case`, lines 570-573);
`365.25 = 1461/4`. -/
def ageYears (dobDays dodDays : ℤ) : ℚ :=
  ((dodDays - dobDays : ℤ) : ℚ) / (1461 / 4)

/-- Embedding of `_load_life_table`: reads `Table01.xlsx` if present, else raises
`FileNotFoundError`.  The file-system state is the `Option LifeTable`
argument; the Excel parsing itself is abstracted to the parsed rows. -/
def loadLifeTable (tableFile : Option LifeTable) : Except String LifeTable :=
  match tableFile with
  | none => Except.error fileNotFoundMsg
  | some t => Except.ok t

/-- The fraction-of-year timeline built (identically) at the end of
`_compute_life_expectancy` (lines 171-177) and
`_compute_worklife_expectancy` (lines 216-221):
`[1.0] * floor(y)` plus the fractional remainder when it exceeds `1e-6`. -/
def buildFractions (y : ℚ) : List ℚ :=
  let whole : ℤ := ⌊y⌋
  let fractional : ℚ := y - (whole : ℚ)
  List.replicate whole.toNat 1 ++ (if fractional > 1 / 1000000 then [fractional] else [])

/-- Embedding of `_compute_life_expectancy` (lines 126-177): override short-circuit,
otherwise table load, floor-age lookup, `max(0, 78.4 - age)` fallback,
and linear interpolation toward the next age when that row exists. -/
def computeLifeExpectancy (tableFile : Option LifeTable) (age : ℚ) (sex : String)
    (overrideYears : Option ℚ) : Except String (ℚ × List ℚ) :=
  match overrideYears with
  | some y => Except.ok (y, buildFractions y)
  | none =>
    match loadLifeTable tableFile with
    | Except.error e => Except.error e
    | Except.ok table =>
      let ageFloor : ℤ := ⌊age⌋
      match table.find? (fun row => (row.1 : ℤ) = ageFloor) with
      | none =>
        let le := max 0 (392 / 5 - age)
        Except.ok (le, buildFractions le)
      | some exRow =>
        let frac : ℚ := age - (ageFloor : ℚ)
        match table.find? (fun row => (row.1 : ℤ) = ageFloor + 1) with
        | none => Except.ok (exRow.2, buildFractions exRow.2)
        | some nextRow =>
          let le := exRow.2 - frac * (exRow.2 - nextRow.2)
          Except.ok (le, buildFractions le)

/-- Embedding of `_compute_worklife_expectancy` (lines 180-221): the override when
given, else `max(0, retirement_age_hint - age)`; `active_status` and
`education_level` are accepted but unused, as in the source. -/
def computeWorklifeExpectancy (age retirementAgeHint : ℚ) (activeStatus educationLevel : String)
    (override : Option ℚ) : ℚ × List ℚ :=
  let wle := override.getD (max 0 (retirementAgeHint - age))
  (wle, buildFractions wle)

/-- The backward-construction loop of `_compute_wage_growth_series`
(lines 252-257): each iteration inserts the current salary at the front
and divides it by `(1 + growth_rate)`. -/
def buildWages (growthRate : ℚ) : ℕ → ℚ → List ℚ
  | 0, _ => []
  | n + 1, current => buildWages growthRate n (current / (1 + growthRate)) ++ [current]

/-- One year-over-year growth entry (line 262):
`(cur - prev) / prev if prev else 0.0`. -/
def yoyRate (prev cur : ℚ) : ℚ :=
  if prev = 0 then 0 else (cur - prev) / prev

/-- The year-over-year rates between consecutive wages (lines 259-263). -/
def yoyRates : List ℚ → List ℚ
  | [] => []
  | [_] => []
  | a :: b :: rest => yoyRate a b :: yoyRates (b :: rest)

/-- Embedding of `_compute_wage_growth_series` (lines 224-272): wage list, the
`YoYGrowth` column (`[None] + yoy_rates`), and the arithmetic mean of
the rates (`0.0` when there are none). -/
def computeWageGrowthSeries (baseSalary growthRate : ℚ) (years : ℕ) :
    List ℚ × List (Option ℚ) × ℚ :=
  let wages := buildWages growthRate years baseSalary
  let rates := yoyRates wages
  let avgGrowth := if rates.length = 0 then 0 else rates.sum / (rates.length : ℚ)
  (wages, none :: rates.map some, avgGrowth)

/-- The projection loop of `_compute_projections` (lines 297-303):
`current *= (1 + growth_rate) if i > 0 else 1.0`, collecting the
full-year values and the portion-adjusted values. -/
def projectionsGo (growthRate : ℚ) (current : ℚ) (i : ℕ) : List ℚ → List ℚ × List ℚ
  | [] => ([], [])
  | portion :: rest =>
    let c := if i > 0 then current * (1 + growthRate) else current
    let tail := projectionsGo growthRate c (i + 1) rest
    (c :: tail.1, c * portion :: tail.2)

/-- Embedding of `_compute_projections` (lines 275-310): full-year and
fraction-adjusted earnings over the worklife portions. -/
def computeProjections (baseSalary growthRate : ℚ) (portions : List ℚ) : List ℚ × List ℚ :=
  projectionsGo growthRate baseSalary 0 portions

/-- Embedding of `_compute_discount_factors` (lines 313-334):
`factors = [1.0 / ((1 + discount_rate) ** t) for t in range(n)]`. -/
def computeDiscountFactors (discountRate : ℚ) (n : ℕ) : List ℚ :=
  (List.range n).map (fun t => 1 / (1 + discountRate) ^ t)

/-- The accumulation loop of `_compute_present_values` (lines 352-359),
indexing `discount_factors[i]` for each `i < len(actual_values)`: an
out-of-range index is a Python `IndexError`. -/
def pvLoop : List ℚ → List ℚ → ℚ → Except String (List ℚ × List ℚ)
  | [], _, _ => Except.ok ([], [])
  | _ :: _, [], _ => Except.error indexErrorMsg
  | a :: as, f :: fs, cum =>
    let present := a * f
    (pvLoop as fs (cum + present)).map
      (fun tail => (present :: tail.1, (cum + present) :: tail.2))

/-- Embedding of `_compute_present_values` (lines 337-365): per-year present values
and the running cumulative sums, starting from `cum = 0.0`. -/
def computePresentValues (actualValues discountFactors : List ℚ) :
    Except String (List ℚ × List ℚ) :=
  pvLoop actualValues discountFactors 0

/-- Embedding of `run_case` (lines 540-648), restricted to the computation pipeline:
age derivation, the five stages in source order, the
`pv_df["CumulativePV"].iloc[-1]` extraction (an `IndexError` when the
cumulative table is empty), and the summary dict.  Validation of
required fields is discharged by the record types; file rendering is
out of scope. -/
def runCase (tableFile : Option LifeTable) (cfg : CaseConfig) : Except String RunResult :=
  let age := ageYears cfg.person.dobDays cfg.person.dodDays
  match computeLifeExpectancy tableFile age cfg.person.sex
      cfg.assumptions.lifeExpectancyOverrideYears with
  | Except.error e => Except.error e
  | Except.ok lf =>
    let wp := computeWorklifeExpectancy age (cfg.assumptions.retirementAgeHint.getD 65)
      cfg.person.activeStatus cfg.person.educationLevel cfg.assumptions.worklifeTableOverride
    let growthRate := cfg.assumptions.annualGrowthRateOverride.getD (7 / 250)
    let wg := computeWageGrowthSeries cfg.occupation.baseSalaryUsd growthRate 7
    let proj := computeProjections cfg.occupation.baseSalaryUsd growthRate wp.2
    let discountRate := cfg.assumptions.discountRateOverride.getD (37 / 1000)
    let factors := computeDiscountFactors discountRate proj.2.length
    match computePresentValues proj.2 factors with
    | Except.error e => Except.error e
    | Except.ok pvc =>
      match pvc.2.getLast? with
      | none => Except.error indexErrorMsg
      | some totalLoss =>
        Except.ok
          { lifeExpectancy := lf.1
            lifeFractions := lf.2
            worklifeYears := wp.1
            worklifePortions := wp.2
            wages := wg.1
            yoyGrowth := wg.2.1
            avgGrowth := wg.2.2
            fullYearValues := proj.1
            actualValues := proj.2
            discountFactors := factors
            presentValues := pvc.1
            cumulativePV := pvc.2
            summary :=
              { lifeExpectancyYears := lf.1
                worklifeRemainingYears := wp.1
                avgWageGrowthPct := wg.2.2 * 100
                discountRatePct := discountRate * 100
                totalEconomicLossUsd := totalLoss } }

/-- Life-expectancy value as worded by the specification (section 4.2 /
claim C4): floor-age lookup, `max(0, 78.4 - age)` when the row is
missing, else `ex(floor) - frac * (ex(floor) - ex(floor+1))`, skipping
the interpolation when the `floor + 1` row is missing. -/
def specLifeExpectancy (table : LifeTable) (age : ℚ) : ℚ :=
  match table.find? (fun row => (row.1 : ℤ) = ⌊age⌋) with
  | none => max 0 (392 / 5 - age)
  | some exRow =>
    match table.find? (fun row => (row.1 : ℤ) = ⌊age⌋ + 1) with
    | none => exRow.2
    | some nextRow => exRow.2 - (age - (⌊age⌋ : ℚ)) * (exRow.2 - nextRow.2)

/-- Running partial sums starting from `c`; the shape of the
`cumulative` column built by `_compute_present_values`. -/
def runningSums (c : ℚ) : List ℚ → List ℚ
  | [] => []
  | x :: xs => (c + x) :: runningSums (c + x) xs

/-! Helper lemmas about the fraction-of-year builder. -/

lemma buildFractions_zero : buildFractions 0 = [] := by
  norm_num [buildFractions]

lemma buildFractions_ne_nil (y : ℚ) (hy : 1 / 1000000 < y) : buildFractions y ≠ [] := by
  intro h
  simp only [buildFractions] at h
  rcases List.append_eq_nil.mp h with ⟨h1, h2⟩
  have hn : (⌊y⌋).toNat = 0 := by
    simpa using h1
  have hle : ⌊y⌋ ≤ 0 := Int.toNat_eq_zero.mp hn
  have hpos : 0 < y := lt_trans (by norm_num) hy
  have hge : 0 ≤ ⌊y⌋ := Int.floor_nonneg.mpr hpos.le
  have hfl0 : ⌊y⌋ = 0 := le_antisymm hle hge
  rw [hfl0] at h2
  have hcond : y - ((0 : ℤ) : ℚ) > 1 / 1000000 := by
    push_cast
    simpa using hy
  rw [if_pos hcond] at h2
  exact List.cons_ne_nil _ _ h2

lemma buildFractions_mem (y f : ℚ) (h : f ∈ buildFractions y) : 0 < f ∧ f ≤ 1 := by
  simp only [buildFractions, List.mem_append] at h
  rcases h with h | h
  · rcases List.eq_of_mem_replicate h with rfl
    exact ⟨one_pos, le_refl 1⟩
  · by_cases hc : y - ((⌊y⌋ : ℤ) : ℚ) > 1 / 1000000
    · rw [if_pos hc] at h
      rcases List.mem_singleton.mp h with rfl
      constructor
      · exact lt_trans (by norm_num) hc
      · have hlt : y - ((⌊y⌋ : ℤ) : ℚ) < 1 := by
          have := Int.fract_lt_one y
          rwa [Int.fract] at this
        exact le_of_lt hlt
    · rw [if_neg hc] at h
      exact absurd h (List.not_mem_nil f)

lemma buildFractions_length (y : ℚ) :
    (buildFractions y).length =
      (⌊y⌋).toNat + (if y - ((⌊y⌋ : ℤ) : ℚ) > 1 / 1000000 then 1 else 0) := by
  simp only [buildFractions, List.length_append, List.length_replicate]
  by_cases hc : y - ((⌊y⌋ : ℤ) : ℚ) > 1 / 1000000
  · rw [if_pos hc, if_pos hc]
    rfl
  · rw [if_neg hc, if_neg hc]
    rfl

/-! Helper lemmas about the backward wage reconstruction. -/

lemma buildWages_ne_nil (g cur : ℚ) (n : ℕ) : buildWages g (n + 1) cur ≠ [] := by
  simp [buildWages]

lemma buildWages_getLast? (g cur : ℚ) (n : ℕ) :
    (buildWages g (n + 1) cur).getLast? = some cur := by
  simp [buildWages, List.getLast?_concat]

lemma yoyRates_concat (l : List ℚ) (a c : ℚ) (h : l.getLast? = some a) :
    yoyRates (l ++ [c]) = yoyRates l ++ [yoyRate a c] := by
  induction l generalizing a with
  | nil => simp at h
  | cons x xs ih =>
    cases xs with
    | nil =>
      have hx : a = x := by
        simp at h
        exact h.symm
      subst hx
      simp [yoyRates]
    | cons y ys =>
      have h2 : (y :: ys).getLast? = some a := by
        rwa [List.getLast?_cons_cons] at h
      have hthis := ih a h2
      simp only [List.cons_append, yoyRates, List.append_eq] at hthis ⊢
      rw [hthis]

lemma yoyRate_div (g cur : ℚ) (hc : cur ≠ 0) (hg : 1 + g ≠ 0) :
    yoyRate (cur / (1 + g)) cur = g := by
  have hd : cur / (1 + g) ≠ 0 := div_ne_zero hc hg
  rw [yoyRate, if_neg hd]
  field_simp
  ring

lemma yoyRates_buildWages (g : ℚ) (hg : 1 + g ≠ 0) :
    ∀ (n : ℕ) (cur : ℚ), cur ≠ 0 → yoyRates (buildWages g (n + 1) cur) = List.replicate n g := by
  intro n
  induction n with
  | zero =>
    intro cur _
    simp [buildWages, yoyRates]
  | succ m ih =>
    intro cur hc
    have hd : cur / (1 + g) ≠ 0 := div_ne_zero hc hg
    have hlast := buildWages_getLast? g (cur / (1 + g)) m
    calc yoyRates (buildWages g (m + 2) cur)
        = yoyRates (buildWages g (m + 1) (cur / (1 + g)) ++ [cur]) := rfl
      _ = yoyRates (buildWages g (m + 1) (cur / (1 + g))) ++ [yoyRate (cur / (1 + g)) cur] :=
          yoyRates_concat _ _ _ hlast
      _ = List.replicate m g ++ [g] := by rw [ih _ hd, yoyRate_div g cur hc hg]
      _ = List.replicate (m + 1) g := by simp [List.replicate_succ']

lemma avgGrowth_eq (base g : ℚ) (years : ℕ) (hb : base ≠ 0) (hg : 1 + g ≠ 0)
    (hn : 2 ≤ years) : (computeWageGrowthSeries base g years).2.2 = g := by
  obtain ⟨m, rfl⟩ : ∃ m, years = m + 2 := ⟨years - 2, by omega⟩
  have hr : yoyRates (buildWages g (m + 2) base) = List.replicate (m + 1) g :=
    yoyRates_buildWages g hg (m + 1) base hb
  simp only [computeWageGrowthSeries, hr]
  have hlen : (List.replicate (m + 1) g).length = m + 1 := List.length_replicate _ _
  rw [if_neg (by simp)]
  rw [hlen, List.sum_replicate, nsmul_eq_mul]
  have hm : ((m : ℚ) + 1) ≠ 0 := by positivity
  push_cast
  field_simp

/-! Helper lemmas about the earnings projection loop. -/

lemma projectionsGo_snd (g : ℚ) :
    ∀ (ps : List ℚ) (cur : ℚ) (i : ℕ),
      (projectionsGo g cur i ps).2 = List.zipWith (· * ·) (projectionsGo g cur i ps).1 ps := by
  intro ps
  induction ps with
  | nil => intro cur i; rfl
  | cons p rest ih =>
    intro cur i
    simp only [projectionsGo, List.zipWith]
    rw [ih]

lemma projectionsGo_length (g : ℚ) :
    ∀ (ps : List ℚ) (cur : ℚ) (i : ℕ),
      (projectionsGo g cur i ps).1.length = ps.length ∧
        (projectionsGo g cur i ps).2.length = ps.length := by
  intro ps
  induction ps with
  | nil => intro cur i; exact ⟨rfl, rfl⟩
  | cons p rest ih =>
    intro cur i
    simp only [projectionsGo, List.length_cons]
    exact ⟨by rw [(ih _ _).1], by rw [(ih _ _).2]⟩

lemma projectionsGo_fst_pos (g : ℚ) :
    ∀ (ps : List ℚ) (cur : ℚ) (i : ℕ), 1 ≤ i →
      (projectionsGo g cur i ps).1 =
        (List.range ps.length).map (fun t => cur * (1 + g) ^ (t + 1)) := by
  intro ps
  induction ps with
  | nil => intro cur i _; rfl
  | cons p rest ih =>
    intro cur i hi
    have hc : (if i > 0 then cur * (1 + g) else cur) = cur * (1 + g) := by
      rw [if_pos (by omega)]
    simp only [projectionsGo, hc, List.length_cons]
    rw [ih (cur * (1 + g)) (i + 1) (by omega)]
    rw [List.range_succ_eq_map, List.map_cons, List.map_map]
    refine List.cons_eq_cons.mpr ⟨by ring, ?_⟩
    refine List.map_congr_left ?_
    intro t _
    simp only [Function.comp_apply, Nat.succ_eq_add_one]
    ring

lemma computeProjections_fst (base g : ℚ) (ps : List ℚ) :
    (computeProjections base g ps).1 =
      (List.range ps.length).map (fun t => base * (1 + g) ^ t) := by
  cases ps with
  | nil => rfl
  | cons p rest =>
    simp only [computeProjections, projectionsGo, if_neg (lt_irrefl 0), List.length_cons]
    rw [projectionsGo_fst_pos g rest base 1 (le_refl 1)]
    rw [List.range_succ_eq_map, List.map_cons, List.map_map]
    refine List.cons_eq_cons.mpr ⟨by ring, ?_⟩
    refine List.map_congr_left ?_
    intro t _
    simp only [Function.comp_apply, Nat.succ_eq_add_one]

lemma computeProjections_snd (base g : ℚ) (ps : List ℚ) :
    (computeProjections base g ps).2 =
      List.zipWith (· * ·) (computeProjections base g ps).1 ps :=
  projectionsGo_snd g ps base 0

/-! Helper lemmas about the discounter. -/

lemma computeDiscountFactors_length (r : ℚ) (n : ℕ) :
    (computeDiscountFactors r n).length = n := by
  simp [computeDiscountFactors]

lemma computeDiscountFactors_getElem? (r : ℚ) (n t : ℕ) (ht : t < n) :
    (computeDiscountFactors r n)[t]? = some (1 / (1 + r) ^ t) := by
  simp [computeDiscountFactors, List.getElem?_map, List.getElem?_range, ht]

/-! Helper lemmas about the present-value accumulation loop. -/

lemma pvLoop_ok :
    ∀ (av fs : List ℚ) (cum : ℚ), av.length ≤ fs.length →
      pvLoop av fs cum =
        Except.ok (List.zipWith (· * ·) av fs, runningSums cum (List.zipWith (· * ·) av fs)) := by
  intro av
  induction av with
  | nil => intro fs cum _; cases fs <;> rfl
  | cons a as ih =>
    intro fs cum hlen
    cases fs with
    | nil => simp at hlen
    | cons f fs' =>
      simp only [List.length_cons, Nat.add_le_add_iff_right] at hlen
      simp only [pvLoop, List.zipWith, runningSums]
      rw [ih fs' (cum + a * f) hlen]
      rfl

lemma runningSums_length (c : ℚ) (p : List ℚ) : (runningSums c p).length = p.length := by
  induction p generalizing c with
  | nil => rfl
  | cons x xs ih => simp only [runningSums, List.length_cons, ih]

lemma runningSums_getLast? (c : ℚ) (p : List ℚ) (h : p ≠ []) :
    (runningSums c p).getLast? = some (c + p.sum) := by
  induction p generalizing c with
  | nil => exact absurd rfl h
  | cons x xs ih =>
    cases xs with
    | nil => simp [runningSums]
    | cons y ys =>
      have : runningSums c (x :: y :: ys) = (c + x) :: runningSums (c + x) (y :: ys) := rfl
      rw [this]
      have hne : runningSums (c + x) (y :: ys) ≠ [] := by
        intro hnil
        have := runningSums_length (c + x) (y :: ys)
        rw [hnil] at this
        simp at this
      rcases List.exists_cons_of_ne_nil hne with ⟨b, bs, hb⟩
      rw [hb, List.getLast?_cons_cons, ← hb, ih (c + x) (List.cons_ne_nil y ys)]
      congr 1
      simp only [List.sum_cons]
      ring

lemma runningSums_getElem? (p : List ℚ) :
    ∀ (c : ℚ) (t : ℕ), t < p.length →
      (runningSums c p)[t]? = some (c + (p.take (t + 1)).sum) := by
  induction p with
  | nil => intro c t ht; simp at ht
  | cons x xs ih =>
    intro c t ht
    cases t with
    | zero => simp [runningSums]
    | succ t' =>
      have ht' : t' < xs.length := by simpa using ht
      have : runningSums c (x :: xs) = (c + x) :: runningSums (c + x) xs := rfl
      rw [this]
      simp only [List.getElem?_cons_succ]
      rw [ih (c + x) t' ht']
      congr 1
      simp only [List.take_succ_cons, List.sum_cons]
      ring

lemma runningSums_chain (p : List ℚ) (hp : ∀ x ∈ p, 0 ≤ x) :
    ∀ c : ℚ, List.Chain' (· ≤ ·) (runningSums c p) := by
  induction p with
  | nil => intro c; exact List.chain'_nil
  | cons x xs ih =>
    intro c
    have hxs : ∀ y ∈ xs, 0 ≤ y := fun y hy => hp y (List.mem_cons_of_mem x hy)
    have : runningSums c (x :: xs) = (c + x) :: runningSums (c + x) xs := rfl
    rw [this]
    refine List.chain'_cons'.mpr ⟨?_, ih hxs (c + x)⟩
    intro b hb
    cases xs with
    | nil => simp [runningSums] at hb
    | cons z zs =>
      have hzb : c + x + z = b := by
        have : runningSums (c + x) (z :: zs) = (c + x + z) :: runningSums (c + x + z) zs := rfl
        rw [this] at hb
        simpa using hb
      rw [← hzb]
      have hz : 0 ≤ z := hxs z (List.mem_cons_self z zs)
      linarith

lemma zipWith_mul_nonneg :
    ∀ (av fs : List ℚ), (∀ x ∈ av, 0 ≤ x) → (∀ x ∈ fs, 0 ≤ x) →
      ∀ y ∈ List.zipWith (· * ·) av fs, 0 ≤ y := by
  intro av
  induction av with
  | nil => intro fs _ _ y hy; simp at hy
  | cons a as ih =>
    intro fs hav hfs y hy
    cases fs with
    | nil => simp at hy
    | cons f fs' =>
      simp only [List.zipWith, List.mem_cons] at hy
      rcases hy with rfl | hy
      · exact mul_nonneg (hav a (List.mem_cons_self a as)) (hfs f (List.mem_cons_self f fs'))
      · exact ih fs' (fun x hx => hav x (List.mem_cons_of_mem a hx))
          (fun x hx => hfs x (List.mem_cons_of_mem f hx)) y hy

/-! Helper lemmas for the zero-base-salary evaluation. -/

lemma buildWages_zero_base (g : ℚ) : ∀ n : ℕ, buildWages g n 0 = List.replicate n 0 := by
  intro n
  induction n with
  | zero => rfl
  | succ m ih =>
    show buildWages g m (0 / (1 + g)) ++ [0] = List.replicate (m + 1) 0
    rw [zero_div, ih, List.replicate_succ']

lemma yoyRates_replicate_zero : ∀ n : ℕ, yoyRates (List.replicate (n + 1) 0) = List.replicate n 0 := by
  intro n
  induction n with
  | zero => rfl
  | succ m ih =>
    show yoyRates ((0 : ℚ) :: (0 : ℚ) :: List.replicate m 0) = List.replicate (m + 1) 0
    have h : yoyRate (0 : ℚ) 0 = 0 := by simp [yoyRate]
    calc yoyRates ((0 : ℚ) :: (0 : ℚ) :: List.replicate m 0)
        = yoyRate 0 0 :: yoyRates (List.replicate (m + 1) 0) := rfl
      _ = (0 : ℚ) :: List.replicate m 0 := by rw [h, ih]
      _ = List.replicate (m + 1) 0 := rfl

lemma avgGrowth_zero_base (g : ℚ) (years : ℕ) :
    (computeWageGrowthSeries 0 g years).2.2 = 0 := by
  cases years with
  | zero => rfl
  | succ m =>
    simp only [computeWageGrowthSeries, buildWages_zero_base, yoyRates_replicate_zero]
    by_cases hm : m = 0
    · subst hm
      rfl
    · rw [if_neg (by simpa using hm)]
      simp

lemma projectionsGo_zero (g : ℚ) :
    ∀ (ps : List ℚ) (i : ℕ),
      projectionsGo g 0 i ps = (List.replicate ps.length 0, List.replicate ps.length 0) := by
  intro ps
  induction ps with
  | nil => intro i; rfl
  | cons p rest ih =>
    intro i
    simp only [projectionsGo, zero_mul, ite_self, ih, List.length_cons, List.replicate_succ]

lemma pvLoop_zero :
    ∀ (n : ℕ) (fs : List ℚ) (cum : ℚ), n ≤ fs.length →
      pvLoop (List.replicate n 0) fs cum =
        Except.ok (List.replicate n 0, List.replicate n cum) := by
  intro n
  induction n with
  | zero => intro fs cum _; cases fs <;> rfl
  | succ m ih =>
    intro fs cum hlen
    cases fs with
    | nil => simp at hlen
    | cons f fs' =>
      simp only [List.length_cons, Nat.add_le_add_iff_right] at hlen
      show ((pvLoop (List.replicate m 0) fs' (cum + 0 * f)).map
        (fun tail => ((0 : ℚ) * f :: tail.1, (cum + 0 * f) :: tail.2))) = _
      rw [zero_mul, add_zero, ih fs' cum hlen]
      simp [Except.map, List.replicate_succ]

lemma getLast?_replicate_succ (n : ℕ) (c : ℚ) :
    (List.replicate (n + 1) c).getLast? = some c := by
  rw [List.replicate_succ']
  exact List.getLast?_concat _

lemma computeLifeExpectancy_some (tableFile : Option LifeTable) (age : ℚ) (sx : String)
    (y : ℚ) : computeLifeExpectancy tableFile age sx (some y) =
      Except.ok (y, buildFractions y) := rfl

lemma computeWorklifeExpectancy_some (age hint : ℚ) (st ed : String) (y : ℚ) :
    computeWorklifeExpectancy age hint st ed (some y) = (y, buildFractions y) := rfl

/-! Claim theorems. -/

/-- C4: for every fractional age ≥ 0 with no override, the
life-expectancy estimator looks up the integer floor of the age in the
table; with no row for that floor age the result is
`max(0, 78.4 - age)`; with a row it is
`ex(floor) - frac * (ex(floor) - ex(floor+1))`, except that with no row
for `floor + 1` the result is `ex(floor)` unadjusted. -/
theorem life_expectancy_lookup (t : LifeTable) (age : ℚ) (sx : String) (hage : 0 ≤ age) :
    computeLifeExpectancy (some t) age sx none =
      Except.ok (specLifeExpectancy t age, buildFractions (specLifeExpectancy t age)) ∧
    (t.find? (fun row => (row.1 : ℤ) = ⌊age⌋) = none →
      specLifeExpectancy t age = max 0 (392 / 5 - age)) := by
  constructor
  · simp only [computeLifeExpectancy, loadLifeTable, specLifeExpectancy]
    cases h1 : t.find? (fun row => (row.1 : ℤ) = ⌊age⌋) with
    | none => rfl
    | some exRow =>
      cases h2 : t.find? (fun row => (row.1 : ℤ) = ⌊age⌋ + 1) with
      | none => rfl
      | some nextRow => rfl
  · intro h
    simp [specLifeExpectancy, h]

theorem life_expectancy_lookup_witness :
    (0 : ℚ) ≤ 91 / 2 ∧
    computeLifeExpectancy (some [(45, 167 / 5), (46, 163 / 5)]) (91 / 2) "male" none =
      Except.ok (specLifeExpectancy [(45, 167 / 5), (46, 163 / 5)] (91 / 2),
        buildFractions (specLifeExpectancy [(45, 167 / 5), (46, 163 / 5)] (91 / 2))) :=
  ⟨by norm_num, (life_expectancy_lookup [(45, 167 / 5), (46, 163 / 5)] (91 / 2) "male"
    (by norm_num)).1⟩

/-- C5: for every positive base salary and growth rate in `(-1, ∞)`
(and any window of at least two years, such as the default seven), the
arithmetic mean of the year-over-year rates reported by the wage-growth
reconstructor equals the input growth rate exactly, and the first
reconstructed year carries no defined growth (`None` entry). -/
theorem wage_growth_mean (base g : ℚ) (years : ℕ) (hb : 0 < base) (hg : -1 < g)
    (hy : 2 ≤ years) :
    (computeWageGrowthSeries base g years).2.2 = g ∧
    (computeWageGrowthSeries base g years).2.1.head? = some none := by
  constructor
  · exact avgGrowth_eq base g years (ne_of_gt hb) (by linarith) hy
  · rfl

theorem wage_growth_mean_witness :
    (0 : ℚ) < 86900 ∧ (-1 : ℚ) < 7 / 250 ∧ 2 ≤ 7 ∧
    ((computeWageGrowthSeries 86900 (7 / 250) 7).2.2 = 7 / 250 ∧
      (computeWageGrowthSeries 86900 (7 / 250) 7).2.1.head? = some none) :=
  ⟨by norm_num, by norm_num, by norm_num,
    wage_growth_mean 86900 (7 / 250) 7 (by norm_num) (by norm_num) (by norm_num)⟩

/-- C6: the discounter returns `factor[t] = 1 / (1+rate)^t` for
`t = 0..N-1`; `factor[0] = 1` whenever `N ≥ 1`; for `rate ≥ 0` the
factors are monotonically non-increasing; for `rate = 0` every factor
equals 1. -/
theorem discounter_spec (r : ℚ) (n : ℕ) :
    (∀ t, t < n → (computeDiscountFactors r n)[t]? = some (1 / (1 + r) ^ t)) ∧
    (1 ≤ n → (computeDiscountFactors r n).head? = some 1) ∧
    (0 ≤ r → ∀ t, t + 1 < n →
      (computeDiscountFactors r n)[t + 1]?.getD 0 ≤ (computeDiscountFactors r n)[t]?.getD 0) ∧
    (r = 0 → ∀ f ∈ computeDiscountFactors r n, f = 1) := by
  refine ⟨?_, ?_, ?_, ?_⟩
  · intro t ht
    exact computeDiscountFactors_getElem? r n t ht
  · intro hn
    obtain ⟨m, rfl⟩ : ∃ m, n = m + 1 := ⟨n - 1, by omega⟩
    simp [computeDiscountFactors, List.range_succ_eq_map]
  · intro hr t ht
    rw [computeDiscountFactors_getElem? r n t (by omega),
      computeDiscountFactors_getElem? r n (t + 1) ht]
    simp only [Option.getD_some]
    have h1 : (0 : ℚ) < 1 + r := by linarith
    exact one_div_le_one_div_of_le (pow_pos h1 t)
      (pow_le_pow_right₀ (by linarith) (Nat.le_succ t))
  · intro hr f hf
    subst hr
    simp only [computeDiscountFactors, List.mem_map, List.mem_range] at hf
    rcases hf with ⟨t, _, hft⟩
    rw [← hft]
    norm_num

theorem discounter_spec_witness :
    ((computeDiscountFactors 0 2)[1]? = some (1 / (1 + 0) ^ 1)) ∧
    ((computeDiscountFactors 0 2).head? = some 1) ∧
    ((computeDiscountFactors 0 2)[0 + 1]?.getD 0 ≤ (computeDiscountFactors 0 2)[0]?.getD 0) ∧
    (∀ f ∈ computeDiscountFactors 0 2, f = 1) :=
  ⟨(discounter_spec 0 2).1 1 (by norm_num),
   (discounter_spec 0 2).2.1 (by norm_num),
   (discounter_spec 0 2).2.2.1 (le_refl 0) 0 (by norm_num),
   (discounter_spec 0 2).2.2.2 rfl⟩

/-- C7: for equal-length earnings and discount-factor sequences the
aggregator succeeds with per-year present values `earnings[t] * factor[t]`,
the cumulative column is the running sum (entry `t` is the sum of the
first `t+1` present values), the final cumulative value is the total sum,
and for non-negative inputs the cumulative column is non-decreasing. -/
theorem present_value_spec (av fs : List ℚ) (h : av.length = fs.length) :
    ∃ p cums, computePresentValues av fs = Except.ok (p, cums) ∧
      p = List.zipWith (· * ·) av fs ∧
      (∀ t, t < cums.length → cums[t]? = some ((p.take (t + 1)).sum)) ∧
      (av ≠ [] → cums.getLast? = some p.sum) ∧
      ((∀ x ∈ av, 0 ≤ x) → (∀ x ∈ fs, 0 ≤ x) → List.Chain' (· ≤ ·) cums) := by
  refine ⟨List.zipWith (· * ·) av fs, runningSums 0 (List.zipWith (· * ·) av fs),
    pvLoop_ok av fs 0 (le_of_eq h), rfl, ?_, ?_, ?_⟩
  · intro t ht
    rw [runningSums_length] at ht
    rw [runningSums_getElem? _ 0 t ht, zero_add]
  · intro hne
    have hzne : List.zipWith (· * ·) av fs ≠ [] := by
      cases av with
      | nil => exact absurd rfl hne
      | cons a as =>
        cases fs with
        | nil => simp at h
        | cons f fs' => simp [List.zipWith]
    rw [runningSums_getLast? 0 _ hzne, zero_add]
  · intro hav hfs
    exact runningSums_chain _ (zipWith_mul_nonneg av fs hav hfs) 0

theorem present_value_spec_witness :
    ([2, 3] : List ℚ).length = ([1, 1] : List ℚ).length ∧
    (∃ p cums, computePresentValues [2, 3] [1, 1] = Except.ok (p, cums) ∧
      p = List.zipWith (· * ·) [2, 3] [1, 1] ∧
      (∀ t, t < cums.length → cums[t]? = some ((p.take (t + 1)).sum)) ∧
      (([2, 3] : List ℚ) ≠ [] → cums.getLast? = some p.sum) ∧
      ((∀ x ∈ ([2, 3] : List ℚ), 0 ≤ x) → (∀ x ∈ ([1, 1] : List ℚ), 0 ≤ x) →
        List.Chain' (· ≤ ·) cums)) :=
  ⟨rfl, present_value_spec [2, 3] [1, 1] rfl⟩

/-- C8: with a portion sequence of all ones the projector's full-year
values are exactly the geometric series `base * (1+r)^t` (so the first
value is the base salary when the horizon is non-empty), and in general
each fraction-adjusted value is `full_year_value[t] * portion[t]`. -/
theorem projector_geometric (base r : ℚ) (n : ℕ) (ps : List ℚ) :
    (computeProjections base r ps).2 = List.zipWith (· * ·) (computeProjections base r ps).1 ps ∧
    (computeProjections base r (List.replicate n 1)).1 =
      (List.range n).map (fun t => base * (1 + r) ^ t) ∧
    (1 ≤ n → (computeProjections base r (List.replicate n 1)).1.head? = some base) := by
  refine ⟨computeProjections_snd base r ps, ?_, ?_⟩
  · rw [computeProjections_fst, List.length_replicate]
  · intro hn
    obtain ⟨m, rfl⟩ : ∃ m, n = m + 1 := ⟨n - 1, by omega⟩
    rw [computeProjections_fst, List.length_replicate, List.range_succ_eq_map]
    simp

/-- C9 (amended): every entry of the TimeFraction sequence satisfies
`0 < f ≤ 1`, and the length equals `ceil(total remaining years)`
provided the fractional part of the years value is zero or exceeds the
`1e-6` epsilon (when `0 < frac ≤ 1e-6` the code drops the fractional
entry, so the length is `floor(years)`, one less than the ceiling). -/
theorem time_fraction_spec (y : ℚ) (hy : 0 ≤ y)
    (hfr : y - ((⌊y⌋ : ℤ) : ℚ) = 0 ∨ 1 / 1000000 < y - ((⌊y⌋ : ℤ) : ℚ)) :
    (∀ f ∈ buildFractions y, 0 < f ∧ f ≤ 1) ∧ ((buildFractions y).length : ℤ) = ⌈y⌉ := by
  refine ⟨fun f hf => buildFractions_mem y f hf, ?_⟩
  have h2 : 0 ≤ ⌊y⌋ := Int.floor_nonneg.mpr hy
  rcases hfr with h0 | hgt
  · have hyint : y = ((⌊y⌋ : ℤ) : ℚ) := by linarith [sub_eq_zero.mp h0]
    rw [buildFractions_length, if_neg (by rw [h0]; norm_num)]
    have hceil : ⌈y⌉ = ⌊y⌋ := by rw [hyint]; simp
    rw [hceil]
    omega
  · rw [buildFractions_length, if_pos hgt]
    have hlt : ((⌊y⌋ : ℤ) : ℚ) < y := by linarith
    have hceil : ⌈y⌉ = ⌊y⌋ + 1 := by
      have hub : ⌈y⌉ ≤ ⌊y⌋ + 1 := by
        apply Int.ceil_le.mpr
        push_cast
        linarith [Int.lt_floor_add_one y]
      have hlb : ⌊y⌋ < ⌈y⌉ := Int.lt_ceil.mpr hlt
      omega
    rw [hceil]
    omega

theorem time_fraction_spec_witness :
    (0 : ℚ) ≤ 7 / 2 ∧
    ((∀ f ∈ buildFractions (7 / 2), 0 < f ∧ f ≤ 1) ∧
      ((buildFractions (7 / 2 : ℚ)).length : ℤ) = ⌈(7 / 2 : ℚ)⌉) :=
  ⟨by norm_num, time_fraction_spec (7 / 2) (by norm_num) (Or.inr (by norm_num))⟩

/-- C9 (counterexample): for the remaining-years value `5 + 1/2000000`
(supplied as a worklife override, hence produced by the worklife
estimator) the fractional part `1/2000000` is positive but below the
`1e-6` epsilon, so the TimeFraction sequence has 5 entries while
`ceil(5 + 1/2000000) = 6`: the claimed length law fails. -/
theorem time_fraction_ceil_cex :
    ¬ (((computeWorklifeExpectancy 40 65 "active" "HS"
          (some (5 + 1 / 2000000))).2.length : ℤ) =
        ⌈(computeWorklifeExpectancy 40 65 "active" "HS" (some (5 + 1 / 2000000))).1⌉) := by
  intro hcontra
  have h1 : computeWorklifeExpectancy 40 65 "active" "HS" (some (5 + 1 / 2000000)) =
      (5 + 1 / 2000000, buildFractions (5 + 1 / 2000000)) := rfl
  rw [h1] at hcontra
  have hfl : ⌊(5 + 1 / 2000000 : ℚ)⌋ = 5 := by norm_num
  have hlen : (buildFractions (5 + 1 / 2000000 : ℚ)).length = 5 := by
    rw [buildFractions_length, hfl,
      if_neg (by push_cast; norm_num : ¬ ((5 + 1 / 2000000 : ℚ) - ((5 : ℤ) : ℚ) > 1 / 1000000))]
    rfl
  have hceil : ⌈(5 + 1 / 2000000 : ℚ)⌉ = 6 := by
    have hq : (5 + 1 / 2000000 : ℚ) = 10000001 / 2000000 := by norm_num
    rw [hq, Int.ceil_eq_iff] <;> norm_num
  simp only [hlen, hceil] at hcontra
  omega

/-- C10: two valid case configurations that differ only in the person's
sex, education level, or activity status produce identical numeric
results: `run_case` never reads those fields in the computation. -/
theorem demographics_irrelevant (tableFile : Option LifeTable) (caseId fn ln : String)
    (sx1 sx2 : String) (dob dod : ℤ) (ed1 ed2 act1 act2 : String)
    (occ : Occupation) (asm : Assumptions) :
    runCase tableFile ⟨caseId, ⟨fn, ln, sx1, dob, dod, ed1, act1⟩, occ, asm⟩ =
      runCase tableFile ⟨caseId, ⟨fn, ln, sx2, dob, dod, ed2, act2⟩, occ, asm⟩ := rfl

/-- C2 (code bug): with no life-expectancy override and the reference
life-table file absent, `_load_life_table` raises `FileNotFoundError`
and `_compute_life_expectancy` does not catch it, so the whole run
fails instead of recovering via the `max(0, 78.4 - age)` closed form
(the fallback is only reached when the file loads but lacks the row). -/
theorem table_absent_fails_run (cfg : CaseConfig)
    (h : cfg.assumptions.lifeExpectancyOverrideYears = none) :
    computeLifeExpectancy none (ageYears cfg.person.dobDays cfg.person.dodDays)
        cfg.person.sex none = Except.error fileNotFoundMsg ∧
    runCase none cfg = Except.error fileNotFoundMsg := by
  refine ⟨rfl, ?_⟩
  simp only [runCase, h]
  rfl

/-- Concrete case with no life-expectancy override, used to witness the
table-absent failure. -/
def cfgNoLifeOverride : CaseConfig :=
  ⟨"case_c2", ⟨"Jane", "Doe", "female", 0, 14610, "HS", "active"⟩,
   ⟨"11-2022", "Sales Manager", "Riverside", "CA", 86900⟩,
   ⟨some 65, none, some 10, none, none⟩⟩

theorem table_absent_fails_run_witness :
    cfgNoLifeOverride.assumptions.lifeExpectancyOverrideYears = none ∧
    (computeLifeExpectancy none
        (ageYears cfgNoLifeOverride.person.dobDays cfgNoLifeOverride.person.dodDays)
        cfgNoLifeOverride.person.sex none = Except.error fileNotFoundMsg ∧
      runCase none cfgNoLifeOverride = Except.error fileNotFoundMsg) :=
  ⟨rfl, table_absent_fails_run cfgNoLifeOverride rfl⟩

/-- C1 (code bug): with no worklife override and a retirement-age hint
at or below the age at death the worklife horizon is zero, so the
portion, projection, discount and present-value tables are all empty —
but then `run_case` crashes with an `IndexError` at
`pv_df["CumulativePV"].iloc[-1]` instead of reporting a zero total
economic loss. -/
theorem zero_worklife_horizon (tableFile : Option LifeTable) (cfg : CaseConfig)
    (hov : cfg.assumptions.worklifeTableOverride = none)
    (hhint : cfg.assumptions.retirementAgeHint.getD 65 ≤
      ageYears cfg.person.dobDays cfg.person.dodDays)
    (hlife : ∃ lf, computeLifeExpectancy tableFile
        (ageYears cfg.person.dobDays cfg.person.dodDays) cfg.person.sex
        cfg.assumptions.lifeExpectancyOverrideYears = Except.ok lf) :
    (computeWorklifeExpectancy (ageYears cfg.person.dobDays cfg.person.dodDays)
        (cfg.assumptions.retirementAgeHint.getD 65) cfg.person.activeStatus
        cfg.person.educationLevel none).2 = [] ∧
    computeProjections cfg.occupation.baseSalaryUsd
        (cfg.assumptions.annualGrowthRateOverride.getD (7 / 250)) [] = ([], []) ∧
    computeDiscountFactors (cfg.assumptions.discountRateOverride.getD (37 / 1000)) 0 = [] ∧
    computePresentValues [] [] = Except.ok ([], []) ∧
    runCase tableFile cfg = Except.error indexErrorMsg := by
  have hwle : max 0 (cfg.assumptions.retirementAgeHint.getD 65 -
      ageYears cfg.person.dobDays cfg.person.dodDays) = 0 :=
    max_eq_left (sub_nonpos.mpr hhint)
  have hport : (computeWorklifeExpectancy (ageYears cfg.person.dobDays cfg.person.dodDays)
      (cfg.assumptions.retirementAgeHint.getD 65) cfg.person.activeStatus
      cfg.person.educationLevel none).2 = [] := by
    simp only [computeWorklifeExpectancy, Option.getD_none, hwle, buildFractions_zero]
  refine ⟨hport, rfl, rfl, rfl, ?_⟩
  obtain ⟨lf, hlf⟩ := hlife
  simp only [runCase, hlf, hov, hport]
  rfl

/-- Concrete zero-horizon case (retirement hint 40 equals the age at
death of 40 exactly), used to witness the `IndexError` crash. -/
def cfgZeroHorizon : CaseConfig :=
  ⟨"case_c1", ⟨"John", "Doe", "male", 0, 14610, "BA", "active"⟩,
   ⟨"11-2022", "Sales Manager", "Riverside", "CA", 86900⟩,
   ⟨some 40, some 30, none, none, none⟩⟩

theorem zero_worklife_horizon_witness :
    cfgZeroHorizon.assumptions.worklifeTableOverride = none ∧
    cfgZeroHorizon.assumptions.retirementAgeHint.getD 65 ≤
      ageYears cfgZeroHorizon.person.dobDays cfgZeroHorizon.person.dodDays ∧
    runCase none cfgZeroHorizon = Except.error indexErrorMsg :=
  ⟨rfl, by norm_num [cfgZeroHorizon, ageYears],
   (zero_worklife_horizon none cfgZeroHorizon rfl (by norm_num [cfgZeroHorizon, ageYears])
     ⟨(30, buildFractions 30), rfl⟩).2.2.2.2⟩

/-- C3 (amended): a supplied life-expectancy, worklife, growth-rate or
discount-rate override is reflected exactly in the Summary, provided
the run completes and the growth figure is not degraded: concretely,
for a nonzero base salary, a growth override with `1 + g ≠ 0`, and a
worklife override above the `1e-6` epsilon (so the horizon is
non-empty and the final `iloc[-1]` does not crash), `run_case` returns
a Summary carrying exactly the overridden values. -/
theorem overrides_reflected (tableFile : Option LifeTable) (cfg : CaseConfig)
    (le w g d : ℚ)
    (hle : cfg.assumptions.lifeExpectancyOverrideYears = some le)
    (hw : cfg.assumptions.worklifeTableOverride = some w)
    (hg : cfg.assumptions.annualGrowthRateOverride = some g)
    (hd : cfg.assumptions.discountRateOverride = some d)
    (hbase : cfg.occupation.baseSalaryUsd ≠ 0)
    (hg1 : 1 + g ≠ 0)
    (hwpos : 1 / 1000000 < w) :
    ∃ res, runCase tableFile cfg = Except.ok res ∧
      res.summary.lifeExpectancyYears = le ∧
      res.summary.worklifeRemainingYears = w ∧
      res.summary.avgWageGrowthPct = g * 100 ∧
      res.summary.discountRatePct = d * 100 := by
  simp only [runCase, hle, hw, hg, hd, computeLifeExpectancy_some,
    computeWorklifeExpectancy_some, Option.getD_some]
  set base := cfg.occupation.baseSalaryUsd with hbaseEq
  set ps := buildFractions w with hpsEq
  set proj2 := (computeProjections base g ps).2 with hproj2Eq
  set factors := computeDiscountFactors d proj2.length with hfactorsEq
  have hflen : factors.length = proj2.length := computeDiscountFactors_length _ _
  have hpv : computePresentValues proj2 factors =
      Except.ok (List.zipWith (· * ·) proj2 factors,
        runningSums 0 (List.zipWith (· * ·) proj2 factors)) :=
    pvLoop_ok proj2 factors 0 (le_of_eq hflen.symm)
  have hpne : ps ≠ [] := buildFractions_ne_nil w hwpos
  have hlen2 : proj2.length = ps.length := (projectionsGo_length g ps base 0).2
  have hzlen : (List.zipWith (· * ·) proj2 factors).length = ps.length := by
    rw [List.length_zipWith, hflen, min_self, hlen2]
  have hcne : runningSums 0 (List.zipWith (· * ·) proj2 factors) ≠ [] := by
    intro hnil
    have hl := runningSums_length 0 (List.zipWith (· * ·) proj2 factors)
    rw [hnil] at hl
    have hps0 : ps.length = 0 := by
      rw [← hzlen, ← hl]
      rfl
    exact hpne (List.eq_nil_of_length_eq_zero hps0)
  obtain ⟨tl, htl⟩ : ∃ x,
      (runningSums 0 (List.zipWith (· * ·) proj2 factors)).getLast? = some x := by
    rw [← Option.isSome_iff_exists, List.getLast?_isSome]
    exact hcne
  have havg : (computeWageGrowthSeries base g 7).2.2 = g :=
    avgGrowth_eq base g 7 hbase hg1 (by norm_num)
  simp only [hpv, htl]
  exact ⟨_, rfl, rfl, rfl, by simp only [havg], rfl⟩

/-- Concrete case carrying all four overrides, used to witness the
override-reflection theorem. -/
def cfgAllOverrides : CaseConfig :=
  ⟨"case_c3", ⟨"John", "Doe", "male", 0, 14610, "BA", "active"⟩,
   ⟨"11-2022", "Sales Manager", "Riverside", "CA", 100⟩,
   ⟨some 65, some 30, some 2, some 0, some 0⟩⟩

theorem overrides_reflected_witness :
    cfgAllOverrides.assumptions.lifeExpectancyOverrideYears = some 30 ∧
    cfgAllOverrides.assumptions.worklifeTableOverride = some 2 ∧
    cfgAllOverrides.assumptions.annualGrowthRateOverride = some 0 ∧
    cfgAllOverrides.assumptions.discountRateOverride = some 0 ∧
    cfgAllOverrides.occupation.baseSalaryUsd ≠ 0 ∧
    (1 : ℚ) + 0 ≠ 0 ∧ (1 / 1000000 : ℚ) < 2 ∧
    (∃ res, runCase none cfgAllOverrides = Except.ok res ∧
      res.summary.lifeExpectancyYears = 30 ∧
      res.summary.worklifeRemainingYears = 2 ∧
      res.summary.avgWageGrowthPct = 0 * 100 ∧
      res.summary.discountRatePct = 0 * 100) :=
  ⟨rfl, rfl, rfl, rfl, by norm_num [cfgAllOverrides], by norm_num, by norm_num,
   overrides_reflected none cfgAllOverrides 30 2 0 0 rfl rfl rfl rfl
     (by norm_num [cfgAllOverrides]) (by norm_num) (by norm_num)⟩

/-- Concrete case with a zero base salary and a 5% growth override,
refuting the claim that every supplied override is reflected exactly in
the Summary. -/
def cfgZeroSalary : CaseConfig :=
  ⟨"case_c3_cex", ⟨"John", "Doe", "male", 0, 14610, "BA", "active"⟩,
   ⟨"11-2022", "Sales Manager", "Riverside", "CA", 0⟩,
   ⟨some 65, some 30, some 2, some (1 / 20), some 0⟩⟩

/-- C3 (counterexample): with base salary 0 and growth override
`1/20` (5%), `run_case` completes but the Summary reports an average
wage growth of 0%, not the overridden 5%: the `prev if prev else 0.0`
guard zeroes every year-over-year rate, so the override is not
reflected. -/
theorem overrides_growth_cex :
    (runCase none cfgZeroSalary).map (fun r => r.summary.avgWageGrowthPct) =
      Except.ok 0 ∧ (0 : ℚ) ≠ (1 / 20) * 100 := by
  constructor
  · have hbf2 : buildFractions (2 : ℚ) = [1, 1] := by
      have hfl : ⌊(2 : ℚ)⌋ = 2 := by norm_num
      simp only [buildFractions, hfl]
      rw [if_neg (by push_cast; norm_num)]
      rfl
    have hproj : computeProjections 0 (1 / 20) [1, 1] =
        (List.replicate 2 0, List.replicate 2 0) := projectionsGo_zero (1 / 20) [1, 1] 0
    have hpv : computePresentValues (List.replicate 2 0) (computeDiscountFactors 0 2) =
        Except.ok (List.replicate 2 0, List.replicate 2 0) :=
      pvLoop_zero 2 (computeDiscountFactors 0 2) 0
        (le_of_eq (computeDiscountFactors_length 0 2).symm)
    have hlast : (List.replicate 2 (0 : ℚ)).getLast? = some 0 := getLast?_replicate_succ 1 0
    simp only [runCase, cfgZeroSalary, computeLifeExpectancy_some,
      computeWorklifeExpectancy_some, Option.getD_some, hbf2, hproj,
      List.length_replicate, hpv, hlast, Except.map]
    rw [avgGrowth_zero_base]
    norm_num
  · norm_num

theorem projector_geometric_witness :
    ((computeProjections 5 (1 / 2) [1]).2 =
      List.zipWith (· * ·) (computeProjections 5 (1 / 2) [1]).1 [1] ∧
    (computeProjections 5 (1 / 2) (List.replicate 1 1)).1 =
      (List.range 1).map (fun t => 5 * (1 + 1 / 2) ^ t) ∧
    (1 ≤ 1 → (computeProjections 5 (1 / 2) (List.replicate 1 1)).1.head? = some 5)) ∧
    (computeProjections 5 (1 / 2) (List.replicate 1 1)).1.head? = some 5 :=
  ⟨projector_geometric 5 (1 / 2) 1 [1],
   (projector_geometric 5 (1 / 2) 1 [1]).2.2 (le_refl 1)⟩

end ForensicLoss
